import Mathlib

/-!
Verification development for the wazuh event-engine core: the Router
(router.cpp), the Helper Operator Library (opBuilderHelperMap.cpp) and the
Session Manager (sessionManager.cpp).  Definitions are shallow embeddings of
the C++ source; where the source of a collaborator is unavailable (the JSON
event wrapper, the environment manager, the map container declarations of the
headers) a definition is modelled from the specification and says so in its
doc comment.
-/

namespace Wazuh

/-! ## Generic association-list maps

The C++ state containers (std::map / std::unordered_map) are embedded as
association lists with distinct keys.  Lookup, erase and set mirror
`find`, `erase` and `operator[]`. -/

/-- Lookup of a key in an association list (std::map::find). -/
def lookupKey {α β : Type} [DecidableEq α] (k : α) : List (α × β) → Option β
  | [] => none
  | (k', v) :: rest => if k = k' then some v else lookupKey k rest

/-- Erase the first binding of a key (std::map::erase of a present key;
keys are kept distinct by the operations, so at most one binding exists). -/
def eraseKey {α β : Type} [DecidableEq α] (k : α) : List (α × β) → List (α × β)
  | [] => []
  | (k', v) :: rest => if k = k' then rest else (k', v) :: eraseKey k rest

/-- Insert-if-absent (std::map::emplace / std::map::insert: both leave the
map unchanged when the key is already present). -/
def emplaceKey {α β : Type} [DecidableEq α] (k : α) (v : β) (m : List (α × β)) :
    List (α × β) :=
  match lookupKey k m with
  | some _ => m
  | none => (k, v) :: m

/-- Overwrite-or-insert (std::map::operator[] assignment / `it->second = v`). -/
def setKey {α β : Type} [DecidableEq α] (k : α) (v : β) : List (α × β) → List (α × β)
  | [] => [(k, v)]
  | (k', v') :: rest => if k = k' then (k, v) :: rest else (k', v') :: setKey k v rest

/-- Keys of an association list. -/
def keysOf {α β : Type} (m : List (α × β)) : List α := m.map Prod.fst

/-! ## Event model

Modelled from the spec: the JSON event wrapper (`json::Json`) is not among
the provided sources.  Per spec §3 an Event is a structured document whose
fields are addressed by pointer paths, with typed accessors get/set/exists/
append that report absence instead of failing, and with type-mismatched set
calls overwriting.  The embedding treats a pointer path as an atomic key of
a flat field map; the helper claims below only ever address disjoint fields,
for which the flat view is exact. -/

/-- A JSON value (spec §3: string, integer, double, boolean, null leaves;
object and array interiors; the double leaf is irrelevant to the claims and
is omitted). Strings are lists of characters so that byte-level content,
including embedded NUL characters, is explicit. -/
inductive JValue : Type
  | vStr : List Char → JValue
  | vInt : Int → JValue
  | vBool : Bool → JValue
  | vNull : JValue
  | vArr : List JValue → JValue

mutual

/-- Boolean equality of JSON values. -/
def beqJ : JValue → JValue → Bool
  | JValue.vStr a, JValue.vStr b => a == b
  | JValue.vInt a, JValue.vInt b => a == b
  | JValue.vBool a, JValue.vBool b => a == b
  | JValue.vNull, JValue.vNull => true
  | JValue.vArr a, JValue.vArr b => beqJList a b
  | _, _ => false

/-- Boolean equality of JSON value lists. -/
def beqJList : List JValue → List JValue → Bool
  | [], [] => true
  | x :: xs, y :: ys => beqJ x y && beqJList xs ys
  | _, _ => false

end

mutual

theorem beqJ_iff : ∀ (a b : JValue), beqJ a b = true ↔ a = b
  | JValue.vStr _, b => by cases b <;> simp [beqJ]
  | JValue.vInt _, b => by cases b <;> simp [beqJ]
  | JValue.vBool _, b => by cases b <;> simp [beqJ]
  | JValue.vNull, b => by cases b <;> simp [beqJ]
  | JValue.vArr xs, JValue.vStr _ => by simp [beqJ]
  | JValue.vArr xs, JValue.vInt _ => by simp [beqJ]
  | JValue.vArr xs, JValue.vBool _ => by simp [beqJ]
  | JValue.vArr xs, JValue.vNull => by simp [beqJ]
  | JValue.vArr xs, JValue.vArr ys => by
      simpa [beqJ] using beqJList_iff xs ys

theorem beqJList_iff : ∀ (a b : List JValue), beqJList a b = true ↔ a = b
  | [], [] => by simp [beqJList]
  | [], _ :: _ => by simp [beqJList]
  | _ :: _, [] => by simp [beqJList]
  | x :: xs, y :: ys => by
      simp [beqJList, beqJ_iff x y, beqJList_iff xs ys]

end

instance : DecidableEq JValue := fun a b => decidable_of_iff _ (beqJ_iff a b)

/-- An event: a flat map from pointer paths to JSON values. -/
def Event : Type := List (String × JValue)

instance : DecidableEq Event := by
  unfold Event; infer_instance

/-- Modelled from the spec: `json::Json::getJson` — the subtree at a path,
absence indicated by `none`. -/
def Event.getJson (e : Event) (p : String) : Option JValue := lookupKey p e

/-- Modelled from the spec: `json::Json::getString` — the string at a path,
`none` when the path is absent or not a string. -/
def Event.getString (e : Event) (p : String) : Option (List Char) :=
  match lookupKey p e with
  | some (JValue.vStr s) => some s
  | _ => none

/-- Modelled from the spec: `json::Json::exists`. -/
def Event.existsPath (e : Event) (p : String) : Bool := (lookupKey p e).isSome

/-- Modelled from the spec: `json::Json::setString` — stores the given
character string at the path, overwriting any previous value. -/
def Event.setString (e : Event) (s : List Char) (p : String) : Event :=
  setKey p (JValue.vStr s) e

/-- Modelled from the spec: `json::Json::setInt`. -/
def Event.setInt (e : Event) (n : Int) (p : String) : Event :=
  setKey p (JValue.vInt n) e

/-- Modelled from the spec: `json::Json::appendJson` — appends a value to
the array at the path; a missing or non-array field is overwritten by a
fresh singleton array (spec §3: type-mismatched set calls overwrite). -/
def Event.appendJson (e : Event) (v : JValue) (p : String) : Event :=
  match lookupKey p e with
  | some (JValue.vArr xs) => setKey p (JValue.vArr (xs ++ [v])) e
  | _ => setKey p (JValue.vArr [v]) e

/-- Modelled from the spec: `json::Json::appendString`. -/
def Event.appendString (e : Event) (s : List Char) (p : String) : Event :=
  e.appendJson (JValue.vStr s) p

/-! ## Helper operator library (opBuilderHelperMap.cpp)

The runtime callables of the helper operators.  A callable maps an event to
`Success(event)` or `Failure(event)`; the precomputed trace strings are
elided (no claim mentions them). -/

/-- A parsed helper parameter (`helper::base::Parameter`): a literal VALUE
or a REFERENCE pointer path. -/
inductive Parameter : Type
  | pValue : List Char → Parameter
  | pReference : String → Parameter
  deriving DecidableEq

/-- Result of a helper operator run (`base::result::Result<base::Event>`,
traces elided). -/
inductive OpResult : Type
  | ok : Event → OpResult
  | fail : Event → OpResult
  deriving DecidableEq

/-! ### string.fromHex (opBuilderHelperStringFromHexa) -/

/-- Value of a hexadecimal digit character, `none` for a non-digit
(the digit classification performed by `strtol(..., 16)` on the two-character
chunks; chunks produced by hex encoding contain plain digits only). -/
def hexDigitVal (c : Char) : Option Nat :=
  if ('0' ≤ c && c ≤ '9') then some (c.toNat - '0'.toNat)
  else if ('a' ≤ c && c ≤ 'f') then some (c.toNat - 'a'.toNat + 10)
  else if ('A' ≤ c && c ≤ 'F') then some (c.toNat - 'A'.toNat + 10)
  else none

/-- Decode consecutive hexadecimal pairs into characters, as the loop of
`opBuilderHelperStringFromHexa` does with `strtol` on each two-character
substring; `none` when some character is not a hexadecimal digit. -/
def decodeHexPairs : List Char → Option (List Char)
  | [] => some []
  | [_] => none
  | c1 :: c2 :: rest =>
    match hexDigitVal c1, hexDigitVal c2, decodeHexPairs rest with
    | some h1, some h2, some tail => some (Char.ofNat (16 * h1 + h2) :: tail)
    | _, _, _ => none

/-- The runtime callable of `string.fromHex` (opBuilderHelperMap.cpp,
`opBuilderHelperStringFromHexa`): read the referenced string; fail when it
is absent or of odd length or contains a non-hex digit; otherwise decode the
pairs into `strASCII`.  The source sizes `strASCII` to `lenHex / 2 + 1`
characters before filling indices `0 .. lenHex / 2 - 1`, so the string
written to the target carries one trailing NUL character. -/
def stringFromHexRun (srcRef : String) (targetField : String) (e : Event) : OpResult :=
  match e.getString srcRef with
  | none => OpResult.fail e
  | some strHex =>
    if strHex.length % 2 = 1 then OpResult.fail e
    else
      match decodeHexPairs strHex with
      | none => OpResult.fail e
      | some bytes => OpResult.ok (e.setString (bytes ++ [Char.ofNat 0]) targetField)

/-- Hex encoding of a character string, two lowercase digits per character
(the "obvious hex-encode" of the spec's round-trip law). -/
def hexDigitChar (n : Nat) : Char :=
  if n < 10 then Char.ofNat ('0'.toNat + n) else Char.ofNat ('a'.toNat + (n - 10))

/-- Hex-encode a string, two lowercase digits per character. -/
def hexEncode : List Char → List Char
  | [] => []
  | c :: rest => hexDigitChar (c.toNat / 16) :: hexDigitChar (c.toNat % 16) :: hexEncode rest

/-! ### string.replace (opBuilderHelperStringReplace) -/

/-- `std::string::find(pat, start)`: the least position `p ≥ start` at which
`pat` occurs in `s` (`p + pat.length ≤ s.length`), or `none`.  Implemented
with the explicit fuel `s.length + 1 - start`, enough to scan every
candidate position. -/
def findFromAux (s pat : List Char) : Nat → Nat → Option Nat
  | 0, _ => none
  | fuel + 1, p =>
    if p + pat.length ≤ s.length then
      if pat.isPrefixOf (s.drop p) then some p else findFromAux s pat fuel (p + 1)
    else none

/-- `std::string::find(pat, start)` on character lists. -/
def findFrom (s pat : List Char) (start : Nat) : Option Nat :=
  findFromAux s pat (s.length + 1 - start) start

/-- One `replace(start_pos, old.length, new)` call of the source:
splice `new` over the `old.length` characters at position `p`. -/
def spliceAt (s : List Char) (p : Nat) (oldLen : Nat) (new : List Char) : List Char :=
  s.take p ++ new ++ s.drop (p + oldLen)

/-- The replace-all scan of `opBuilderHelperStringReplace`: find the old
substring from `start_pos`, splice in the new one, advance `start_pos` past
the replacement, repeat.  The C++ loop has no fuel; the embedding adds one
(`none` = fuel exhausted, i.e. the abstraction of nontermination) so that
termination of the source loop becomes the provable statement that a
sufficient fuel is never exhausted. -/
def replaceLoop (old new : List Char) : Nat → List Char → Nat → Option (List Char)
  | 0, _, _ => none
  | fuel + 1, s, start =>
    match findFrom s old start with
    | none => some s
    | some p => replaceLoop old new fuel (spliceAt s p old.length new) (p + new.length)

/-- Resolve the old/new parameter of `string.replace`: a VALUE is used
verbatim; a REFERENCE is read from the event and must be a present,
non-empty string. -/
def resolveReplaceParam (e : Event) : Parameter → Option (List Char)
  | Parameter.pValue v => some v
  | Parameter.pReference r =>
    match e.getString r with
    | none => none
    | some s => if s.isEmpty then none else some s

/-- The runtime callable of `string.replace` (opBuilderHelperMap.cpp,
`opBuilderHelperStringReplace`): fail when the target field is missing or
empty, or when a referenced old/new parameter is missing or empty; then run
the replace-all scan and write the result.  The outer `Option` is the fuel
sentinel of `replaceLoop` (`none` would mean the C++ loop runs forever). -/
def stringReplaceRun (targetField : String) (oldP newP : Parameter) (e : Event) :
    Option OpResult :=
  match e.getString targetField with
  | none => some (OpResult.fail e)
  | some s =>
    if s.isEmpty then some (OpResult.fail e)
    else
      match resolveReplaceParam e oldP with
      | none => some (OpResult.fail e)
      | some oldSub =>
        match resolveReplaceParam e newP with
        | none => some (OpResult.fail e)
        | some newSub =>
          match replaceLoop oldSub newSub (s.length + 1) s 0 with
          | none => none
          | some res => some (OpResult.ok (e.setString res targetField))

/-! ### array.append (opBuilderHelperAppend) -/

/-- The parameter loop of `opBuilderHelperAppend`: a REFERENCE appends the
referenced JSON subtree to the target array and a missing reference returns
Failure with the event as mutated so far; a VALUE appends the literal as a
string. -/
def appendRun (targetField : String) : List Parameter → Event → OpResult
  | [], e => OpResult.ok e
  | Parameter.pReference r :: rest, e =>
    match e.getJson r with
    | none => OpResult.fail e
    | some v => appendRun targetField rest (e.appendJson v targetField)
  | Parameter.pValue v :: rest, e =>
    appendRun targetField rest (e.appendString v targetField)

/-- The appends performed by a list of parameters, ignoring failure (a
missing reference appends nothing); used to describe the partially mutated
event that `appendRun` returns on Failure. -/
def appendEffect (targetField : String) : List Parameter → Event → Event
  | [], e => e
  | Parameter.pReference r :: rest, e =>
    match e.getJson r with
    | none => e
    | some v => appendEffect targetField rest (e.appendJson v targetField)
  | Parameter.pValue v :: rest, e =>
    appendEffect targetField rest (e.appendString v targetField)

/-! ## Router (router.cpp)

The state mutated by the administrative operations, together with the
trail of `store.update` payloads.  The two route-table indices are
`m_namePriority : name → priority` and `m_priorityRoute : priority →
routes` (one route instance per worker thread).  The declared container
types live in the router header, which is not among the provided sources;
per spec §3 the priority index is iterated in ascending priority order, so
`priorityRoute` is kept sorted ascending by key and its insertion preserves
that order. -/

/-- A route instance (`Route`): compiled predicate, target environment
name, priority. -/
structure Route : Type where
  accept : Event → Bool
  target : String
  priority : Int

/-- The typed errors `router.cpp` produces via `base::Error` messages;
each constructor carries the data interpolated into the corresponding
`fmt::format` string. -/
inductive RouterErr : Type
  | alreadyExists : String → RouterErr -- "Route NAME already exists"
  | priorityTaken : Int → RouterErr -- "Priority P already taken"
  | notFound : String → RouterErr -- "Route NAME not found"
  | priorityNotFound : Int → RouterErr -- "Priority P not found"
  | buildError : RouterErr -- builder exception caught in addRoute
  | envError : String → RouterErr -- error reported by the environment manager
  deriving DecidableEq

/-- A serialized route-table entry (`tableToJson` object: name, priority,
target). -/
abbrev TableEntry : Type := String × Int × String

/-- Router state: the two indices, the environment-manager registry
(modelled from the spec: `addEnvironment` registers a name, and
`deleteEnvironment` deregisters it, here as cons and first-occurrence
erase on a list), and the trail of `store.update` payloads. -/
structure RouterState : Type where
  namePriority : List (String × Int)
  priorityRoute : List (Int × List Route)
  envs : List String
  storeUpdates : List (List TableEntry)

/-- Insert into the ascending-by-key priority index (std::map::insert:
keeps keys sorted; no effect when the key is already present). -/
def insertPriority (p : Int) (v : List Route) : List (Int × List Route) →
    List (Int × List Route)
  | [] => [(p, v)]
  | (p', v') :: rest =>
    if p < p' then (p, v) :: (p', v') :: rest
    else if p = p' then (p', v') :: rest
    else (p', v') :: insertPriority p v rest

/-- The conversion of the `int` priority into the `std::size_t` slot of the
`getRouteTable` tuple (two's-complement wrap into an unsigned 64-bit
value). -/
def sizeT (p : Int) : Nat := (p % (2 : Int) ^ 64).toNat

/-- Comparator of the `std::sort` call in `Router::getRouteTable`: ascending
on the `std::size_t` priority component. -/
def tableLe (a b : TableEntry) : Prop := sizeT a.2.1 ≤ sizeT b.2.1

instance : DecidableRel tableLe := fun a b => by unfold tableLe; infer_instance

instance : IsTotal TableEntry tableLe :=
  ⟨fun a b => Nat.le_total (sizeT a.2.1) (sizeT b.2.1)⟩

instance : IsTrans TableEntry tableLe :=
  ⟨fun _ _ _ h1 h2 => Nat.le_trans h1 h2⟩

/-- `Router::getRouteTable`: one `(name, priority, target)` entry per
`m_namePriority` binding, the target read from the front route instance of
the priority group (an absent group — "should never happen" — contributes
the empty target), sorted ascending by priority. -/
def getRouteTable (s : RouterState) : List TableEntry :=
  List.insertionSort tableLe
    (s.namePriority.map (fun nb =>
      (nb.1, nb.2,
        match lookupKey nb.2 s.priorityRoute with
        | some routes => ((routes.head?).map Route.target).getD ""
        | none => "")))

/-- `Router::dumpTableToStorage`: serialize the table and hand it to
`store.update` (a failing update exits the process; the embedding covers
the surviving, successful branch). -/
def dumpTableToStorage (s : RouterState) : RouterState :=
  { s with storeUpdates := s.storeUpdates ++ [getRouteTable s] }

/-- `Router::addRoute`.  The route instances are built first (`numThreads`
calls of `builder->buildRoute`; a builder exception is caught and returned,
`buildOk = false`); the environment is registered (the environment manager
is external — its outcome is the parameter `envAddErr`); then, under the
lock, the name check and the priority check each assign the local `err`
(the second assignment overwrites the first), and on error the environment
is deregistered and the state left untouched; on success both indices gain
the route and the table is dumped. -/
def addRoute (buildOk : Bool) (envAddErr : Option String) (pred : Event → Bool)
    (numThreads : Nat) (name envName : String) (priority : Int) (s : RouterState) :
    Option RouterErr × RouterState :=
  if ¬buildOk then (some RouterErr.buildError, s)
  else
    match envAddErr with
    | some msg => (some (RouterErr.envError msg), s)
    | none =>
      let s1 : RouterState := { s with envs := envName :: s.envs }
      let errName : Option RouterErr :=
        if (lookupKey name s1.namePriority).isSome then
          some (RouterErr.alreadyExists name)
        else none
      let err : Option RouterErr :=
        if (lookupKey priority s1.priorityRoute).isSome then
          some (RouterErr.priorityTaken priority)
        else errName
      match err with
      | some er => (some er, { s1 with envs := s1.envs.erase envName })
      | none =>
        let routeInstances : List Route :=
          List.replicate numThreads { accept := pred, target := envName, priority }
        let s2 : RouterState :=
          { s1 with
            namePriority := (name, priority) :: s1.namePriority,
            priorityRoute := insertPriority priority routeInstances s1.priorityRoute }
        (none, dumpTableToStorage s2)

/-- `Router::removeRoute`: look the name up, read the target from the front
instance, erase both indices, dump the table, deregister the environment
(the environment manager is external; its answer is the returned value and
is modelled as success). -/
def removeRoute (name : String) (s : RouterState) : Option RouterErr × RouterState :=
  match lookupKey name s.namePriority with
  | none => (some (RouterErr.notFound name), s)
  | some priority =>
    match lookupKey priority s.priorityRoute with
    | none => (some (RouterErr.priorityNotFound priority), s)
    | some routes =>
      let envName := ((routes.head?).map Route.target).getD ""
      let s1 : RouterState :=
        { s with
          namePriority := eraseKey name s.namePriority,
          priorityRoute := eraseKey priority s.priorityRoute }
      let s2 := dumpTableToStorage s1
      (none, { s2 with envs := s2.envs.erase envName })

/-- `Router::changeRoutePriority`: not-found check; early no-op success when
the priorities already match (before any store dump); stale-priority check;
priority-taken check; then update every route instance and both indices and
dump the table. -/
def changeRoutePriority (name : String) (priority : Int) (s : RouterState) :
    Option RouterErr × RouterState :=
  match lookupKey name s.namePriority with
  | none => (some (RouterErr.notFound name), s)
  | some oldPriority =>
    if oldPriority = priority then (none, s)
    else
      match lookupKey oldPriority s.priorityRoute with
      | none => (some (RouterErr.priorityNotFound oldPriority), s)
      | some routes =>
        if (lookupKey priority s.priorityRoute).isSome then
          (some (RouterErr.priorityTaken priority), s)
        else
          let routes' := routes.map (fun r => { r with priority })
          let s1 : RouterState :=
            { s with
              namePriority := setKey name priority s.namePriority,
              priorityRoute :=
                eraseKey oldPriority (insertPriority priority routes' s.priorityRoute) }
          (none, dumpTableToStorage s1)

/-- The dispatch loop body of the worker lambda in `Router::run`: iterate
the priority index in its (ascending) order, evaluate the worker's own
route instance `route.second[i]` on the event, and on the first acceptance
forward to that route's target and break.  The result is the target of the
single `forwardEvent` call, or `none` when the event is discarded. -/
def dispatchEvent (i : Nat) (prs : List (Int × List Route)) (ev : Event) :
    Option String :=
  match prs with
  | [] => none
  | (_, group) :: rest =>
    match group[i]? with
    | some r => if r.accept ev then some r.target else dispatchEvent i rest ev
    | none => dispatchEvent i rest ev

/-! ## Administrative command surface (router.cpp, apiCallbacks and the
private api handlers)

Only the response-message computation is embedded; the underlying
route-table call of each handler is abstracted by its result (`none` for
success, `some msg` for an error message), which the missing-field branches
never consult.  Message strings are reproduced verbatim from the source
format strings. -/

/-- A single-quote character, used by the success-message templates. -/
def sq : String := String.mk [Char.ofNat 39]

/-- `fmt`-style single quoting of an interpolated value. -/
def quoted (v : String) : String := sq ++ v ++ sq

/-- The fields an administrative request may carry (`params.getString` /
`params.getInt` results). -/
structure ApiParams : Type where
  action : Option String
  name : Option String
  priority : Option Int
  target : Option String
  event : Option String

/-- Response message of `Router::apiSetRoute`, given the result of the
inner `addRoute` call. -/
def apiSetRouteMsg (p : ApiParams) (addRes : Option String) : String :=
  match p.name with
  | none => "Error: Error: Missing \"name\" parameter"
  | some name =>
    match p.priority with
    | none => "Error: Error: Missing \"priority\" parameter"
    | some _ =>
      match p.target with
      | none => "Error: Error: Missing \"target\" parameter"
      | some _ =>
        match addRes with
        | some m => "Error: " ++ m
        | none => "Route " ++ quoted name ++ " added"

/-- Response message of `Router::apiDeleteRoute`, given the result of the
inner `removeRoute` call. -/
def apiDeleteRouteMsg (p : ApiParams) (removeRes : Option String) : String :=
  match p.name with
  | none => "Error: Error: Missing \"priority\" parameter"
  | some name =>
    match removeRes with
    | some m => "Error: " ++ m
    | none => "Route " ++ quoted name ++ " deleted"

/-- Response message of `Router::apiChangeRoutePriority`, given the result
of the inner `changeRoutePriority` call. -/
def apiChangeRoutePriorityMsg (p : ApiParams) (changeRes : Option String) : String :=
  match p.name with
  | none => "Error: Error: Missing \"priority\" parameter"
  | some name =>
    match p.priority with
    | none => "Missing \"priority\" parameter"
    | some prio =>
      match changeRes with
      | some m => m
      | none =>
        "Route " ++ quoted name ++ " priority changed to " ++ quoted (toString prio)

/-- Response message of `Router::apiEnqueueEvent`, given the result of
parsing and enqueueing (`none` for success). -/
def apiEnqueueEventMsg (p : ApiParams) (enqRes : Option String) : String :=
  match p.event with
  | none => "Error: Missing \"event\" parameter"
  | some _ =>
    match enqRes with
    | some m => m
    | none => "Ok"

/-- The `apiCallbacks` dispatch on the `action` string; `opRes` abstracts
the result of whichever route-table call the selected handler performs. -/
def apiCallbacksMsg (p : ApiParams) (opRes : Option String) : String :=
  match p.action with
  | none => "Missing \"action\" parameter"
  | some a =>
    if a = "set" then apiSetRouteMsg p opRes
    else if a = "get" then "Ok"
    else if a = "delete" then apiDeleteRouteMsg p opRes
    else if a = "change_priority" then apiChangeRoutePriorityMsg p opRes
    else if a = "enqueue_event" then apiEnqueueEventMsg p opRes
    else "Invalid action " ++ quoted a

/-! ## Session manager (sessionManager.cpp) -/

/-- A session record (`Session`); the monotonic id and the creation
timestamp are irrelevant to the claims (the constructor lives in the
header, which is not among the provided sources) and are omitted. -/
structure Session : Type where
  sessionName : String
  policyName : String
  filterName : String
  routeName : String
  lifespan : Nat
  description : String
  deriving DecidableEq

/-- Session-manager state: the three maps `sessionName → Session`,
`routeName → sessionName`, `policyName → routeName`. -/
structure SMState : Type where
  activeSessions : List (String × Session)
  routeMap : List (String × String)
  policyMap : List (String × String)
  deriving DecidableEq

/-- The empty session-manager state (fresh singleton). -/
def SMState.empty : SMState := ⟨[], [], []⟩

/-- The typed errors of `SessionManager::createSession`. -/
inductive SMErr : Type
  | sessionExists : String → SMErr -- "Session name NAME already exists"
  | policyBound : String → SMErr -- "Policy P is already assigned to a route"
  deriving DecidableEq

/-- `SessionManager::createSession`: reject a taken session name, reject a
policy already present in the policy map, otherwise `emplace` the new
record into all three maps (`emplace` inserts only when the key is
absent). -/
def createSession (nm pol fil rt : String) (lifespan : Nat) (descr : String)
    (s : SMState) : Option SMErr × SMState :=
  if (lookupKey nm s.activeSessions).isSome then
    (some (SMErr.sessionExists nm), s)
  else if (lookupKey pol s.policyMap).isSome then
    (some (SMErr.policyBound pol), s)
  else
    let sess : Session := ⟨nm, pol, fil, rt, lifespan, descr⟩
    (none,
      { activeSessions := emplaceKey nm sess s.activeSessions,
        routeMap := emplaceKey rt nm s.routeMap,
        policyMap := emplaceKey pol rt s.policyMap })

/-- `SessionManager::deleteSessions(removeAll := false, name)`: remove the
session and the entries keyed by its `policyName` and `routeName`; `false`
when the name is unknown. -/
def deleteSession (nm : String) (s : SMState) : Bool × SMState :=
  match lookupKey nm s.activeSessions with
  | none => (false, s)
  | some sess =>
    (true,
      { activeSessions := eraseKey nm s.activeSessions,
        policyMap := eraseKey sess.policyName s.policyMap,
        routeMap := eraseKey sess.routeName s.routeMap })

/-- `SessionManager::deleteSessions(removeAll := true)`: clear all three
maps. -/
def deleteAllSessions (_ : SMState) : SMState := SMState.empty

/-- The session-manager states reachable from the fresh singleton by any
sequence of `createSession`, `deleteSession` and `deleteAllSessions`
calls. -/
inductive SMReachable : SMState → Prop
  | empty : SMReachable SMState.empty
  | create (nm pol fil rt : String) (lifespan : Nat) (descr : String) {s : SMState} :
      SMReachable s → SMReachable (createSession nm pol fil rt lifespan descr s).2
  | delete (nm : String) {s : SMState} :
      SMReachable s → SMReachable (deleteSession nm s).2
  | deleteAll {s : SMState} : SMReachable s → SMReachable (deleteAllSessions s)

/-! ## Association-list lemmas -/

theorem lookupKey_eq_none {α β : Type} [DecidableEq α] (k : α) :
    ∀ m : List (α × β), lookupKey k m = none ↔ k ∉ keysOf m
  | [] => by simp [lookupKey, keysOf]
  | (k', _) :: rest => by
    by_cases h : k = k' <;>
      simp [lookupKey, keysOf, h, lookupKey_eq_none k rest]

theorem mem_of_lookupKey {α β : Type} [DecidableEq α] {k : α} {v : β} :
    ∀ {m : List (α × β)}, lookupKey k m = some v → (k, v) ∈ m := by
  intro m
  induction m with
  | nil => intro h; simp [lookupKey] at h
  | cons kv rest ih =>
    intro h
    by_cases hk : k = kv.1
    · have hv : kv.2 = v := by
        have : some kv.2 = some v := by simpa [lookupKey, hk] using h
        exact Option.some.inj this
      exact List.mem_cons.mpr
        (Or.inl (by obtain ⟨a, b⟩ := kv; cases hk; cases hv; rfl))
    · have : lookupKey k rest = some v := by
        simpa [lookupKey, hk] using h
      exact List.mem_cons_of_mem _ (ih this)

theorem mem_keysOf {α β : Type} {k : α} {v : β} {m : List (α × β)}
    (h : (k, v) ∈ m) : k ∈ keysOf m :=
  List.mem_map_of_mem Prod.fst h

theorem nodup_keys_cons {α β : Type} {kv : α × β} {rest : List (α × β)}
    (hnd : (keysOf (kv :: rest)).Nodup) :
    kv.1 ∉ keysOf rest ∧ (keysOf rest).Nodup :=
  List.nodup_cons.mp (show (kv.1 :: keysOf rest).Nodup from hnd)

theorem lookup_unique {α β : Type} [DecidableEq α] {k : α} {a b : β} :
    ∀ {m : List (α × β)}, (keysOf m).Nodup → (k, a) ∈ m → (k, b) ∈ m → a = b := by
  intro m
  induction m with
  | nil => intro _ ha; simp at ha
  | cons kv rest ih =>
    intro hnd ha hb
    obtain ⟨hk, hnd'⟩ := nodup_keys_cons hnd
    rcases List.mem_cons.mp ha with ha | ha
    · rcases List.mem_cons.mp hb with hb | hb
      · exact congrArg Prod.snd (ha.trans hb.symm)
      · exfalso; apply hk; rw [← ha]; exact mem_keysOf hb
    · rcases List.mem_cons.mp hb with hb | hb
      · exfalso; apply hk; rw [← hb]; exact mem_keysOf ha
      · exact ih hnd' ha hb

theorem eraseKey_sublist {α β : Type} [DecidableEq α] (k : α) :
    ∀ m : List (α × β), List.Sublist (eraseKey k m) m
  | [] => List.Sublist.refl _
  | (k', v) :: rest => by
    by_cases h : k = k'
    · simp only [eraseKey, if_pos h]
      exact List.sublist_cons_self (k', v) rest
    · simpa [eraseKey, h] using List.Sublist.cons₂ (k', v) (eraseKey_sublist k rest)

theorem mem_eraseKey_of_ne {α β : Type} [DecidableEq α] {k k'' : α} {v : β}
    (hne : k ≠ k'') : ∀ {m : List (α × β)}, (k, v) ∈ m → (k, v) ∈ eraseKey k'' m := by
  intro m
  induction m with
  | nil => intro h; simp at h
  | cons kv rest ih =>
    intro h
    by_cases hk : k'' = kv.1
    · rcases List.mem_cons.mp h with h | h
      · exact absurd ((congrArg Prod.fst h).trans hk.symm) hne
      · simpa [eraseKey, hk] using h
    · rcases List.mem_cons.mp h with h | h
      · rw [h]; simp [eraseKey, hk, List.mem_cons]
      · simp only [eraseKey, if_neg hk]
        exact List.mem_cons_of_mem _ (ih h)

theorem not_mem_eraseKey_self {α β : Type} [DecidableEq α] {k : α} {v : β} :
    ∀ {m : List (α × β)}, (keysOf m).Nodup → (k, v) ∉ eraseKey k m := by
  intro m
  induction m with
  | nil => intro _ h; simp [eraseKey] at h
  | cons kv rest ih =>
    intro hnd h
    obtain ⟨hk, hnd'⟩ := nodup_keys_cons hnd
    by_cases hkk : k = kv.1
    · rw [hkk] at h
      simp only [eraseKey, if_pos rfl] at h
      exact hk (mem_keysOf h)
    · simp only [eraseKey, if_neg hkk] at h
      rcases List.mem_cons.mp h with h | h
      · exact hkk (congrArg Prod.fst h)
      · exact ih hnd' h

theorem emplaceKey_of_none {α β : Type} [DecidableEq α] {k : α} {m : List (α × β)}
    (h : lookupKey k m = none) (v : β) : emplaceKey k v m = (k, v) :: m := by
  simp [emplaceKey, h]

theorem emplaceKey_of_some {α β : Type} [DecidableEq α] {k : α} {w : β}
    {m : List (α × β)} (h : lookupKey k m = some w) (v : β) : emplaceKey k v m = m := by
  simp [emplaceKey, h]

/-! ## C4 — addRoute on a known name -/

/-- A concrete route-table state with one route "A" at priority 10 targeting
"envA"; used by the closed counterexamples. -/
def sampleState : RouterState :=
  { namePriority := [("A", 10)],
    priorityRoute := [(10, [{ accept := fun _ => true, target := "envA", priority := 10 }])],
    envs := ["envA"],
    storeUpdates := [] }

/-- C4 counterexample: with route "A" already present at priority 10, the
call `addRoute("A", "envB", 10)` — name known AND priority taken — returns
the PriorityTaken error, not the AlreadyExists error the claim requires:
the priority check of the source overwrites the `err` set by the name
check. -/
theorem c4_counterexample :
    (addRoute true none (fun _ => false) 1 "A" "envB" 10 sampleState).1 =
      some (RouterErr.priorityTaken 10) ∧
    some (RouterErr.priorityTaken 10) ≠ some (RouterErr.alreadyExists "A") := by
  constructor
  · rfl
  · decide

/-- C4 amended: when the route name is already known, `addRoute` fails with
AlreadyExists only if the requested priority is NOT in use; when the
priority is also taken the PriorityTaken error wins (the second check
overwrites the first), and in both cases the state is unchanged. -/
theorem c4_addRoute_known_name (pred : Event → Bool) (numThreads : Nat)
    (name envName : String) (priority : Int) (s : RouterState)
    (hname : (lookupKey name s.namePriority).isSome = true) :
    (lookupKey priority s.priorityRoute = none →
      addRoute true none pred numThreads name envName priority s =
        (some (RouterErr.alreadyExists name), s)) ∧
    ((lookupKey priority s.priorityRoute).isSome = true →
      addRoute true none pred numThreads name envName priority s =
        (some (RouterErr.priorityTaken priority), s)) := by
  constructor
  · intro hprio
    simp only [addRoute, hname, hprio, not_true, if_false, Option.isSome_none,
      Bool.false_eq_true, if_true, if_pos]
    simp [List.erase_cons_head]
  · intro hprio
    simp only [addRoute, hname, hprio, not_true, if_false, if_true]
    simp [List.erase_cons_head]

/-- C4 witness: the amended theorem applied at a concrete state holding
route "A" at priority 10, with a fresh priority 11. -/
theorem c4_witness :
    addRoute true none (fun _ => false) 1 "A" "envB" 11 sampleState =
      (some (RouterErr.alreadyExists "A"), sampleState) :=
  (c4_addRoute_known_name (fun _ => false) 1 "A" "envB" 11 sampleState rfl).1 rfl

/-! ## C5 — addRoute errors leave the router unchanged -/

/-- C5: whenever `addRoute` returns an error — builder exception,
environment-manager refusal, known name or taken priority — the resulting
state equals the initial one: both indices, the store-update trail and the
environment registry (the environment registered before validation is
deregistered again on the validation-failure path). -/
theorem c5_addRoute_error_no_side_effect (buildOk : Bool) (envAddErr : Option String)
    (pred : Event → Bool) (numThreads : Nat) (name envName : String) (priority : Int)
    (s : RouterState) (er : RouterErr)
    (h : (addRoute buildOk envAddErr pred numThreads name envName priority s).1 = some er) :
    (addRoute buildOk envAddErr pred numThreads name envName priority s).2 = s := by
  by_cases hb : buildOk
  · cases envAddErr with
    | some msg => simp [addRoute, hb]
    | none =>
      simp only [addRoute, hb, not_true, if_false] at h ⊢
      by_cases hp : (lookupKey priority s.priorityRoute).isSome
      · simp [hp, List.erase_cons_head]
      · by_cases hn : (lookupKey name s.namePriority).isSome
        · simp [hp, hn, List.erase_cons_head]
        · simp [hp, hn] at h
  · simp [addRoute, hb]

/-- C5 witness: the error case at a concrete state — adding a route whose
priority is taken — leaves the concrete state intact. -/
theorem c5_witness :
    (addRoute true none (fun _ => false) 1 "B" "envB" 10 sampleState).1 =
      some (RouterErr.priorityTaken 10) ∧
    (addRoute true none (fun _ => false) 1 "B" "envB" 10 sampleState).2 = sampleState :=
  ⟨rfl, c5_addRoute_error_no_side_effect true none (fun _ => false) 1 "B" "envB" 10
    sampleState (RouterErr.priorityTaken 10) rfl⟩

/-! ## C9 — missing-parameter response messages -/

/-- C9: the source does not produce the specified message.  A `delete`
request without `name` answers with the wrong field name and a doubled
prefix (`Error: Error: Missing "priority" parameter`, a copy-paste of the
set handler's literal), and a `set` request without `name` answers with a
doubled `Error: ` prefix; a `change_priority` request with `name` but
without `priority` answers with no `Error: ` prefix at all.  Only the
`enqueue_event` handler produces the specified format. -/
theorem c9_missing_field_messages :
    apiCallbacksMsg ⟨some "delete", none, none, none, none⟩ none =
      "Error: Error: Missing \"priority\" parameter" ∧
    "Error: Error: Missing \"priority\" parameter" ≠
      "Error: Missing \"name\" parameter" ∧
    apiCallbacksMsg ⟨some "set", none, none, none, none⟩ none =
      "Error: Error: Missing \"name\" parameter" ∧
    apiCallbacksMsg ⟨some "change_priority", some "A", none, none, none⟩ none =
      "Missing \"priority\" parameter" ∧
    apiCallbacksMsg ⟨some "enqueue_event", none, none, none, none⟩ none =
      "Error: Missing \"event\" parameter" := by
  refine ⟨rfl, ?_, rfl, rfl, rfl⟩
  decide

/-! ## C10 — createSession does not overwrite a shared routeName -/

/-- C10: creating a second session with a fresh session name and a fresh
policy but a routeName already present in the route map succeeds, and the
route map still associates that routeName with the earlier session: the
`emplace` insert leaves an existing binding in place. -/
theorem c10_create_session_shared_route (s : SMState) (rt n1 n2 pol2 fil : String)
    (lifespan : Nat) (descr : String)
    (hroute : lookupKey rt s.routeMap = some n1)
    (hname : lookupKey n2 s.activeSessions = none)
    (hpol : lookupKey pol2 s.policyMap = none) :
    (createSession n2 pol2 fil rt lifespan descr s).1 = none ∧
    lookupKey rt (createSession n2 pol2 fil rt lifespan descr s).2.routeMap = some n1 := by
  simp only [createSession, hname, hpol, Option.isSome_none, Bool.false_eq_true,
    if_false]
  exact ⟨trivial, by rw [emplaceKey_of_some hroute]; exact hroute⟩

/-- C10 witness: a concrete two-session scenario sharing the route "R". -/
theorem c10_witness :
    (createSession "s2" "p2" "f2" "R" 0 ""
      ⟨[("s1", ⟨"s1", "p1", "f1", "R", 0, ""⟩)], [("R", "s1")], [("p1", "R")]⟩).1 =
        none ∧
    lookupKey "R" (createSession "s2" "p2" "f2" "R" 0 ""
      ⟨[("s1", ⟨"s1", "p1", "f1", "R", 0, ""⟩)], [("R", "s1")], [("p1", "R")]⟩).2.routeMap =
        some "s1" :=
  c10_create_session_shared_route
    ⟨[("s1", ⟨"s1", "p1", "f1", "R", 0, ""⟩)], [("R", "s1")], [("p1", "R")]⟩
    "R" "s1" "s2" "p2" "f2" 0 "" rfl rfl rfl

/-! ## C3 — store snapshot on every successful mutation -/

/-- The serialized route table is always sorted by the comparator of the
`std::sort` call. -/
theorem getRouteTable_sorted (s : RouterState) :
    List.Sorted tableLe (getRouteTable s) :=
  List.sorted_insertionSort tableLe _

/-- C3 counterexample: calling `changeRoutePriority` with the route's
current priority succeeds (the specified no-op) but performs no
`store.update` call at all — the source returns before
`dumpTableToStorage` — so a successful mutation call with exactly one
update is falsified. -/
theorem c3_counterexample :
    (changeRoutePriority "A" 10 sampleState).1 = none ∧
    (changeRoutePriority "A" 10 sampleState).2.storeUpdates.length =
      sampleState.storeUpdates.length :=
  ⟨rfl, rfl⟩

/-- C3 amended: every successful `addRoute`, `removeRoute`, and
priority-changing `changeRoutePriority` causes exactly one `store.update`
call whose payload is the full route table sorted ascending by priority;
the no-op `changeRoutePriority` (new priority equal to the current one)
succeeds without any `store.update` call. -/
theorem c3_one_store_update_per_mutation :
    (∀ (buildOk : Bool) (envAddErr : Option String) (pred : Event → Bool)
        (numThreads : Nat) (name envName : String) (priority : Int)
        (s s' : RouterState),
      addRoute buildOk envAddErr pred numThreads name envName priority s = (none, s') →
      s'.storeUpdates = s.storeUpdates ++ [getRouteTable s'] ∧
        List.Sorted tableLe (getRouteTable s')) ∧
    (∀ (name : String) (s s' : RouterState),
      removeRoute name s = (none, s') →
      s'.storeUpdates = s.storeUpdates ++ [getRouteTable s'] ∧
        List.Sorted tableLe (getRouteTable s')) ∧
    (∀ (name : String) (priority : Int) (s s' : RouterState),
      lookupKey name s.namePriority ≠ some priority →
      changeRoutePriority name priority s = (none, s') →
      s'.storeUpdates = s.storeUpdates ++ [getRouteTable s'] ∧
        List.Sorted tableLe (getRouteTable s')) ∧
    (∀ (name : String) (priority : Int) (s : RouterState),
      lookupKey name s.namePriority = some priority →
      changeRoutePriority name priority s = (none, s)) := by
  refine ⟨?_, ?_, ?_, ?_⟩
  · intro buildOk envAddErr pred numThreads name envName priority s s' h
    by_cases hb : buildOk
    · cases envAddErr with
      | some msg => simp [addRoute, hb] at h
      | none =>
        simp only [addRoute, hb, not_true, if_false] at h
        by_cases hp : (lookupKey priority s.priorityRoute).isSome
        · simp [hp] at h
        · by_cases hn : (lookupKey name s.namePriority).isSome
          · simp [hp, hn] at h
          · simp only [hp, hn, Bool.false_eq_true, if_false, if_neg] at h
            obtain ⟨-, rfl⟩ := Prod.mk.injEq .. ▸ h
            exact ⟨rfl, getRouteTable_sorted _⟩
    · simp [addRoute, hb] at h
  · intro name s s' h
    unfold removeRoute at h
    cases hn : lookupKey name s.namePriority with
    | none => simp [hn] at h
    | some priority =>
      cases hp : lookupKey priority s.priorityRoute with
      | none => simp [hn, hp] at h
      | some routes =>
        simp only [hn, hp] at h
        obtain ⟨-, rfl⟩ := Prod.mk.injEq .. ▸ h
        exact ⟨rfl, getRouteTable_sorted _⟩
  · intro name priority s s' hne h
    unfold changeRoutePriority at h
    cases hn : lookupKey name s.namePriority with
    | none => simp [hn] at h
    | some oldPriority =>
      have hold : ¬oldPriority = priority := by
        intro hcontra; exact hne (by rw [hn, hcontra])
      simp only [hn, if_neg hold] at h
      cases hp : lookupKey oldPriority s.priorityRoute with
      | none => simp [hp] at h
      | some routes =>
        simp only [hp] at h
        by_cases htaken : (lookupKey priority s.priorityRoute).isSome
        · simp [htaken] at h
        · simp only [htaken, Bool.false_eq_true, if_false, if_neg] at h
          obtain ⟨-, rfl⟩ := Prod.mk.injEq .. ▸ h
          exact ⟨rfl, getRouteTable_sorted _⟩
  · intro name priority s hn
    simp [changeRoutePriority, hn]

/-- C3 witness: a successful `removeRoute` on the concrete one-route state
appends exactly one snapshot, the (empty) sorted table. -/
theorem c3_witness :
    removeRoute "A" sampleState = (none, (removeRoute "A" sampleState).2) ∧
    (removeRoute "A" sampleState).2.storeUpdates =
      sampleState.storeUpdates ++ [getRouteTable (removeRoute "A" sampleState).2] :=
  ⟨rfl,
    ((c3_one_store_update_per_mutation.2.1) "A" sampleState
      (removeRoute "A" sampleState).2 rfl).1⟩

/-! ## C7 — string.fromHex and the hex-encode round trip -/

/-- C7: `string.fromHex` is not a left inverse of hex encoding.  On the
hex encoding "61" of the one-character string "a" the operator succeeds
but writes the two-character string "a\x00": the source allocates
`lenHex / 2 + 1` characters (`strASCII.resize((lenHex / 2) + 1)`) and
fills only the first `lenHex / 2`, so the C-string terminator it reserved
becomes part of the stored value. -/
theorem c7_fromhex_writes_trailing_nul :
    hexEncode ['a'] = ['6', '1'] ∧
    stringFromHexRun "h" "out" [("h", JValue.vStr ['6', '1'])] =
      OpResult.ok
        [("h", JValue.vStr ['6', '1']), ("out", JValue.vStr ['a', Char.ofNat 0])] ∧
    (['a', Char.ofNat 0] : List Char) ≠ ['a'] := by
  refine ⟨by decide, by decide, by decide⟩

/-! ## C8 — string.replace terminates -/

theorem findFromAux_bounds :
    ∀ (fuel : Nat) (s pat : List Char) (p q : Nat),
      findFromAux s pat fuel p = some q → p ≤ q ∧ q + pat.length ≤ s.length := by
  intro fuel
  induction fuel with
  | zero => intro s pat p q h; simp [findFromAux] at h
  | succ f ih =>
    intro s pat p q h
    simp only [findFromAux] at h
    by_cases h1 : p + pat.length ≤ s.length
    · rw [if_pos h1] at h
      by_cases h2 : pat.isPrefixOf (s.drop p)
      · rw [if_pos h2] at h
        cases Option.some.inj h
        exact ⟨Nat.le_refl p, h1⟩
      · rw [if_neg h2] at h
        obtain ⟨hle, hq⟩ := ih s pat (p + 1) q h
        exact ⟨Nat.le_trans (Nat.le_succ p) hle, hq⟩
    · rw [if_neg h1] at h; cases h

/-- With fuel exceeding the unscanned length, the replace-all loop always
completes: each iteration consumes at least one character of the scanned
range (`old` is non-empty and `start_pos` advances past the
replacement). -/
theorem replaceLoop_isSome (old new : List Char) (hold : old ≠ []) :
    ∀ (fuel : Nat) (s : List Char) (start : Nat), s.length - start < fuel →
      (replaceLoop old new fuel s start).isSome = true := by
  intro fuel
  induction fuel with
  | zero => intro s start h; exact absurd h (Nat.not_lt_zero _)
  | succ f ih =>
    intro s start h
    simp only [replaceLoop]
    cases hf : findFrom s old start with
    | none => simp
    | some p =>
      obtain ⟨hp1, hp2⟩ := findFromAux_bounds (s.length + 1 - start) s old start p hf
      have holdlen : 1 ≤ old.length := by
        cases old with
        | nil => exact absurd rfl hold
        | cons c cs => simp
      have hps : p ≤ s.length := by omega
      have hsplice : (spliceAt s p old.length new).length =
          p + (new.length + (s.length - (p + old.length))) := by
        simp [spliceAt, List.length_take, List.length_drop, Nat.min_eq_left hps,
          Nat.add_assoc]
      apply ih
      omega

/-- C8: the runtime callable of `string.replace` terminates on every event
and every old/new pair: with the construction-time guarantee that a literal
old substring is non-empty, the fueled embedding never exhausts its fuel
(`none`, the abstraction of an infinite C++ loop, is impossible), also
when the new substring contains the old one or is empty. -/
theorem c8_string_replace_terminates (targetField : String) (oldP newP : Parameter)
    (e : Event) (hold : ∀ v, oldP = Parameter.pValue v → v ≠ []) :
    stringReplaceRun targetField oldP newP e ≠ none := by
  unfold stringReplaceRun
  cases hs : e.getString targetField with
  | none => simp
  | some s =>
    by_cases hemp : s.isEmpty
    · simp [hemp]
    · simp only [hemp, Bool.false_eq_true, if_false, if_neg]
      cases hop : resolveReplaceParam e oldP with
      | none => simp
      | some oldSub =>
        cases hnp : resolveReplaceParam e newP with
        | none => simp
        | some newSub =>
          have holdne : oldSub ≠ [] := by
            cases oldP with
            | pValue v =>
              have hv : v = oldSub := by
                simpa [resolveReplaceParam] using hop
              rw [← hv]; exact hold v rfl
            | pReference r =>
              simp only [resolveReplaceParam] at hop
              cases hr : e.getString r with
              | none => simp [hr] at hop
              | some s' =>
                simp only [hr] at hop
                by_cases he : s'.isEmpty
                · rw [if_pos he] at hop; cases hop
                · rw [if_neg he] at hop
                  cases Option.some.inj hop
                  intro hnil
                  exact he (by rw [hnil]; rfl)
          have hrun := replaceLoop_isSome oldSub newSub holdne (s.length + 1) s 0
            (by omega)
          cases hrl : replaceLoop oldSub newSub (s.length + 1) s 0 with
          | none => rw [hrl] at hrun; cases hrun
          | some res => simp [hrl]

/-- C8 witness: the replacement of "a" by "ab" — new containing old — on
the field value "aa" terminates. -/
theorem c8_witness :
    stringReplaceRun "t" (Parameter.pValue ['a']) (Parameter.pValue ['a', 'b'])
      [("t", JValue.vStr ['a', 'a'])] ≠ none :=
  c8_string_replace_terminates "t" (Parameter.pValue ['a'])
    (Parameter.pValue ['a', 'b']) [("t", JValue.vStr ['a', 'a'])]
    (by intro v hv; injection hv with h; rw [← h]; decide)

/-! ## C2 — Failure and event mutation -/

/-- C2 counterexample: `array.append` with a literal first parameter and a
missing reference second parameter returns Failure with the literal already
appended — the event is not bit-identical to its pre-state. -/
theorem c2_counterexample :
    appendRun "t" [Parameter.pValue ['x'], Parameter.pReference "miss"]
      [("t", JValue.vArr [])] =
      OpResult.fail [("t", JValue.vArr [JValue.vStr ['x']])] ∧
    ([("t", JValue.vArr [JValue.vStr ['x']])] : Event) ≠ [("t", JValue.vArr [])] :=
  ⟨by decide, by decide⟩

/-- C2 amended: the single-write helpers leave the event unchanged on
Failure (shown for `string.fromHex` and `string.replace`, whose failures
all precede their one write), but `array.append` mutates as it iterates:
its Failure event carries the appends of every parameter preceding the
first missing reference, and equals the pre-state only when that reference
comes first. -/
theorem c2_failure_mutation :
    (∀ (srcRef targetField : String) (e e' : Event),
      stringFromHexRun srcRef targetField e = OpResult.fail e' → e' = e) ∧
    (∀ (targetField : String) (oldP newP : Parameter) (e e' : Event),
      stringReplaceRun targetField oldP newP e = some (OpResult.fail e') → e' = e) ∧
    (∀ (targetField : String) (params : List Parameter) (e e' : Event),
      appendRun targetField params e = OpResult.fail e' →
      e' = appendEffect targetField params e ∧
      ∃ pre r post, params = pre ++ Parameter.pReference r :: post ∧
        e'.getJson r = none ∧ e' = appendEffect targetField pre e) := by
  refine ⟨?_, ?_, ?_⟩
  · intro srcRef targetField e e' h
    simp only [stringFromHexRun] at h
    cases hg : e.getString srcRef with
    | none => rw [hg] at h; exact (OpResult.fail.inj h).symm
    | some strHex =>
      simp only [hg] at h
      by_cases hodd : strHex.length % 2 = 1
      · rw [if_pos hodd] at h; exact (OpResult.fail.inj h).symm
      · rw [if_neg hodd] at h
        cases hd : decodeHexPairs strHex with
        | none => simp only [hd] at h; exact (OpResult.fail.inj h).symm
        | some bytes => simp only [hd] at h; cases h
  · intro targetField oldP newP e e' h
    simp only [stringReplaceRun] at h
    cases hg : e.getString targetField with
    | none =>
      simp only [hg] at h
      exact (OpResult.fail.inj (Option.some.inj h)).symm
    | some s =>
      simp only [hg] at h
      by_cases hemp : s.isEmpty
      · rw [if_pos hemp] at h
        exact (OpResult.fail.inj (Option.some.inj h)).symm
      · rw [if_neg hemp] at h
        cases hop : resolveReplaceParam e oldP with
        | none =>
          simp only [hop] at h
          exact (OpResult.fail.inj (Option.some.inj h)).symm
        | some oldSub =>
          simp only [hop] at h
          cases hnp : resolveReplaceParam e newP with
          | none =>
            simp only [hnp] at h
            exact (OpResult.fail.inj (Option.some.inj h)).symm
          | some newSub =>
            simp only [hnp] at h
            cases hrl : replaceLoop oldSub newSub (s.length + 1) s 0 with
            | none => simp only [hrl] at h; cases h
            | some res => simp only [hrl] at h; cases Option.some.inj h
  · intro targetField params
    induction params with
    | nil => intro e e' h; cases h
    | cons p rest ih =>
      intro e e' h
      cases p with
      | pValue v =>
        simp only [appendRun] at h
        obtain ⟨heff, pre, r, post, heq, hnone, hpre⟩ :=
          ih (e.appendString v targetField) e' h
        refine ⟨by simpa [appendEffect] using heff,
          Parameter.pValue v :: pre, r, post, by rw [heq]; rfl, hnone, ?_⟩
        simpa [appendEffect] using hpre
      | pReference r =>
        simp only [appendRun] at h
        cases hg : e.getJson r with
        | none =>
          rw [hg] at h
          have he : e' = e := (OpResult.fail.inj h).symm
          subst he
          exact ⟨by simp [appendEffect, hg], [], r, rest, rfl, hg, rfl⟩
        | some v =>
          rw [hg] at h
          obtain ⟨heff, pre, r', post, heq, hnone, hpre⟩ :=
            ih (e.appendJson v targetField) e' h
          refine ⟨by simp [appendEffect, hg]; exact heff,
            Parameter.pReference r :: pre, r', post, by rw [heq]; rfl, hnone, ?_⟩
          simp [appendEffect, hg]
          exact hpre

/-- C2 witness: the amended characterization applied to the concrete
counterexample run: the missing reference "miss" is preceded by the one
literal parameter whose append is retained. -/
theorem c2_witness :
    ∃ pre r post,
      ([Parameter.pValue ['x'], Parameter.pReference "miss"] : List Parameter) =
        pre ++ Parameter.pReference r :: post ∧
      Event.getJson [("t", JValue.vArr [JValue.vStr ['x']])] r = none ∧
      ([("t", JValue.vArr [JValue.vStr ['x']])] : Event) =
        appendEffect "t" pre [("t", JValue.vArr [])] :=
  (c2_failure_mutation.2.2 "t" [Parameter.pValue ['x'], Parameter.pReference "miss"]
    [("t", JValue.vArr [])] [("t", JValue.vArr [JValue.vStr ['x']])] (by decide)).2

/-! ## C1 — dispatch selects the minimum-priority accepting route -/

/-- C1: at most one environment receives a dequeued event — the dispatch
loop forwards at most once (its result is the optional single target) —
and the receiving route is a minimum-priority accepting one.  Over a
priority index whose keys ascend strictly (the std::map invariant;
modelled from the spec, the header declaring the container is not among
the sources): if the worker's dispatch forwards to `t`, some table entry
accepted the event, its target is `t`, and its priority is least among all
entries whose instance for this worker accepts the event; if no instance
accepts, nothing is forwarded. -/
theorem c1_dispatch_min_priority (i : Nat) (prs : List (Int × List Route)) (ev : Event)
    (hsorted : (prs.map Prod.fst).Pairwise (· < ·)) :
    (∀ t, dispatchEvent i prs ev = some t →
      ∃ pg ∈ prs, ∃ r, pg.2[i]? = some r ∧ r.accept ev = true ∧ r.target = t ∧
        ∀ pg' ∈ prs, ∀ r', pg'.2[i]? = some r' → r'.accept ev = true →
          pg.1 ≤ pg'.1) ∧
    ((∀ pg ∈ prs, ∀ r, pg.2[i]? = some r → r.accept ev = false) →
      dispatchEvent i prs ev = none) := by
  induction prs with
  | nil => exact ⟨fun t h => Option.noConfusion h, fun _ => rfl⟩
  | cons hd tl ih =>
    obtain ⟨p, g⟩ := hd
    have hsc := List.pairwise_cons.mp
      (show List.Pairwise (· < ·) (p :: tl.map Prod.fst) from hsorted)
    have hlt : ∀ q ∈ tl.map Prod.fst, p < q := hsc.1
    have IH := ih hsc.2
    constructor
    · intro t h
      simp only [dispatchEvent] at h
      cases hg : g[i]? with
      | some r =>
        simp only [hg] at h
        by_cases hacc : r.accept ev = true
        · rw [if_pos hacc] at h
          refine ⟨(p, g), List.mem_cons_self _ _, r, hg, hacc, Option.some.inj h, ?_⟩
          intro pg' hpg' r' hr' hacc'
          rcases List.mem_cons.mp hpg' with rfl | hmem
          · exact Int.le_refl p
          · exact Int.le_of_lt (hlt pg'.1 (List.mem_map_of_mem Prod.fst hmem))
        · rw [if_neg hacc] at h
          obtain ⟨pg, hmem, r'', hr'', hacc'', ht, hmin⟩ := IH.1 t h
          refine ⟨pg, List.mem_cons_of_mem _ hmem, r'', hr'', hacc'', ht, ?_⟩
          intro pg' hpg' r' hr' hacc'
          rcases List.mem_cons.mp hpg' with rfl | hmem'
          · exact absurd
              (by rw [Option.some.inj (hr'.symm.trans hg)] at hacc'; exact hacc') hacc
          · exact hmin pg' hmem' r' hr' hacc'
      | none =>
        simp only [hg] at h
        obtain ⟨pg, hmem, r'', hr'', hacc'', ht, hmin⟩ := IH.1 t h
        refine ⟨pg, List.mem_cons_of_mem _ hmem, r'', hr'', hacc'', ht, ?_⟩
        intro pg' hpg' r' hr' hacc'
        rcases List.mem_cons.mp hpg' with rfl | hmem'
        · rw [hg] at hr'; cases hr'
        · exact hmin pg' hmem' r' hr' hacc'
    · intro hnone
      simp only [dispatchEvent]
      cases hg : g[i]? with
      | some r =>
        have hf : r.accept ev = false := hnone (p, g) (List.mem_cons_self _ _) r hg
        simp only [hf, Bool.false_eq_true, if_false]
        exact IH.2 (fun pg hmem r' hr' => hnone pg (List.mem_cons_of_mem _ hmem) r' hr')
      | none =>
        exact IH.2 (fun pg hmem r' hr' => hnone pg (List.mem_cons_of_mem _ hmem) r' hr')

/-- C1 witness: with routes at priorities 5 (target "envB") and 10 (target
"envA"), both accepting, worker 0 forwards to "envB" and the minimality
conclusions hold at that table. -/
theorem c1_witness :
    dispatchEvent 0
      [(5, [{ accept := fun _ => true, target := "envB", priority := 5 }]),
       (10, [{ accept := fun _ => true, target := "envA", priority := 10 }])] [] =
      some "envB" ∧
    ∃ pg ∈ [((5 : Int), [{ accept := fun _ => true, target := "envB", priority := 5 }]),
            ((10 : Int), [{ accept := fun _ => true, target := "envA",
                            priority := 10 }])],
      ∃ r : Route, pg.2[0]? = some r ∧ r.accept [] = true ∧ r.target = "envB" ∧
        ∀ pg' ∈ [((5 : Int), [{ accept := fun _ => true, target := "envB",
                                priority := 5 }]),
                 ((10 : Int), [{ accept := fun _ => true, target := "envA",
                                 priority := 10 }])],
          ∀ r' : Route, pg'.2[0]? = some r' → r'.accept [] = true → pg.1 ≤ pg'.1 :=
  ⟨rfl,
    (c1_dispatch_min_priority 0
      [(5, [{ accept := fun _ => true, target := "envB", priority := 5 }]),
       (10, [{ accept := fun _ => true, target := "envA", priority := 10 }])] []
      (by simp)).1 "envB" rfl⟩

/-! ## C6 — session-manager map invariants -/

/-- The nodup-key property survives erasing a key. -/
theorem nodup_keys_eraseKey {α β : Type} [DecidableEq α] (k : α)
    {m : List (α × β)} (h : (keysOf m).Nodup) : (keysOf (eraseKey k m)).Nodup :=
  List.Nodup.sublist (List.Sublist.map Prod.fst (eraseKey_sublist k m)) h

/-- The strengthened inductive invariant of the session-manager state: the
three maps have distinct keys, every route-map entry names an active
session whose record carries that route, and every policy-map entry is the
policy/route pair of an active session. -/
structure SMInv (s : SMState) : Prop where
  nodupSessions : (keysOf s.activeSessions).Nodup
  nodupPolicy : (keysOf s.policyMap).Nodup
  nodupRoute : (keysOf s.routeMap).Nodup
  routeVals : ∀ pr ∈ s.routeMap, ∃ sess : Session,
    ((pr : String × String).2, sess) ∈ s.activeSessions ∧ sess.routeName = pr.1
  policyVals : ∀ pp ∈ s.policyMap, ∃ nm, ∃ sess : Session,
    (nm, sess) ∈ s.activeSessions ∧ sess.policyName = (pp : String × String).1 ∧
      sess.routeName = pp.2

theorem smInv_empty : SMInv SMState.empty := by
  refine ⟨?_, ?_, ?_, ?_, ?_⟩ <;> simp [SMState.empty, keysOf]

theorem smInv_create (nm pol fil rt : String) (lifespan : Nat) (descr : String)
    {s : SMState} (h : SMInv s) :
    SMInv (createSession nm pol fil rt lifespan descr s).2 := by
  by_cases h1 : (lookupKey nm s.activeSessions).isSome = true
  · simpa [createSession, h1] using h
  · by_cases h2 : (lookupKey pol s.policyMap).isSome = true
    · simpa [createSession, h1, h2] using h
    · have hn1 : lookupKey nm s.activeSessions = none :=
        Option.not_isSome_iff_eq_none.mp h1
      have hn2 : lookupKey pol s.policyMap = none :=
        Option.not_isSome_iff_eq_none.mp h2
      simp only [createSession, if_neg h1, if_neg h2]
      rw [emplaceKey_of_none hn1, emplaceKey_of_none hn2]
      cases hrt : lookupKey rt s.routeMap with
      | some w =>
        rw [emplaceKey_of_some hrt]
        refine ⟨?_, ?_, h.nodupRoute, ?_, ?_⟩
        · exact List.nodup_cons.mpr ⟨(lookupKey_eq_none nm _).mp hn1, h.nodupSessions⟩
        · exact List.nodup_cons.mpr ⟨(lookupKey_eq_none pol _).mp hn2, h.nodupPolicy⟩
        · intro pr hpr
          obtain ⟨sess', hmem, hname⟩ := h.routeVals pr hpr
          exact ⟨sess', List.mem_cons_of_mem _ hmem, hname⟩
        · intro pp hpp
          rcases List.mem_cons.mp hpp with rfl | hmem
          · exact ⟨nm, ⟨nm, pol, fil, rt, lifespan, descr⟩,
              List.mem_cons_self _ _, rfl, rfl⟩
          · obtain ⟨nm', sess', hmem', hpol, hroute⟩ := h.policyVals pp hmem
            exact ⟨nm', sess', List.mem_cons_of_mem _ hmem', hpol, hroute⟩
      | none =>
        rw [emplaceKey_of_none hrt]
        refine ⟨?_, ?_, ?_, ?_, ?_⟩
        · exact List.nodup_cons.mpr ⟨(lookupKey_eq_none nm _).mp hn1, h.nodupSessions⟩
        · exact List.nodup_cons.mpr ⟨(lookupKey_eq_none pol _).mp hn2, h.nodupPolicy⟩
        · exact List.nodup_cons.mpr ⟨(lookupKey_eq_none rt _).mp hrt, h.nodupRoute⟩
        · intro pr hpr
          rcases List.mem_cons.mp hpr with rfl | hmem
          · exact ⟨⟨nm, pol, fil, rt, lifespan, descr⟩, List.mem_cons_self _ _, rfl⟩
          · obtain ⟨sess', hmem', hname⟩ := h.routeVals pr hmem
            exact ⟨sess', List.mem_cons_of_mem _ hmem', hname⟩
        · intro pp hpp
          rcases List.mem_cons.mp hpp with rfl | hmem
          · exact ⟨nm, ⟨nm, pol, fil, rt, lifespan, descr⟩,
              List.mem_cons_self _ _, rfl, rfl⟩
          · obtain ⟨nm', sess', hmem', hpol, hroute⟩ := h.policyVals pp hmem
            exact ⟨nm', sess', List.mem_cons_of_mem _ hmem', hpol, hroute⟩

theorem smInv_delete (nm : String) {s : SMState} (h : SMInv s) :
    SMInv (deleteSession nm s).2 := by
  cases hl : lookupKey nm s.activeSessions with
  | none => simpa [deleteSession, hl] using h
  | some sess =>
    have hmem : (nm, sess) ∈ s.activeSessions := mem_of_lookupKey hl
    simp only [deleteSession, hl]
    refine ⟨nodup_keys_eraseKey nm h.nodupSessions,
      nodup_keys_eraseKey sess.policyName h.nodupPolicy,
      nodup_keys_eraseKey sess.routeName h.nodupRoute, ?_, ?_⟩
    · intro pr hpr
      obtain ⟨k, v⟩ := pr
      have hpr' : (k, v) ∈ s.routeMap := (eraseKey_sublist _ _).subset hpr
      obtain ⟨sess', hmem', hname⟩ := h.routeVals (k, v) hpr'
      by_cases hne : v = nm
      · exfalso
        have hss : sess' = sess :=
          lookup_unique h.nodupSessions (hne ▸ hmem') hmem
        have hkey : k = sess.routeName := hss ▸ hname.symm
        exact not_mem_eraseKey_self h.nodupRoute (hkey ▸ hpr)
      · exact ⟨sess', mem_eraseKey_of_ne hne hmem', hname⟩
    · intro pp hpp
      obtain ⟨k, v⟩ := pp
      have hpp' : (k, v) ∈ s.policyMap := (eraseKey_sublist _ _).subset hpp
      obtain ⟨nm', sess', hmem', hpol, hroute⟩ := h.policyVals (k, v) hpp'
      by_cases hne : nm' = nm
      · exfalso
        have hss : sess' = sess :=
          lookup_unique h.nodupSessions (hne ▸ hmem') hmem
        have hkey : k = sess.policyName := hss ▸ hpol.symm
        exact not_mem_eraseKey_self h.nodupPolicy (hkey ▸ hpp)
      · exact ⟨nm', sess', mem_eraseKey_of_ne hne hmem', hpol, hroute⟩

theorem smInv_reachable {s : SMState} (h : SMReachable s) : SMInv s := by
  induction h with
  | empty => exact smInv_empty
  | create nm pol fil rt lifespan descr _ ih => exact smInv_create _ _ _ _ _ _ ih
  | delete nm _ ih => exact smInv_delete _ ih
  | deleteAll _ _ => exact smInv_empty

/-- C6: in every session-manager state reachable by createSession /
deleteSession / deleteAllSessions from the empty state, the policy map has
at most as many entries as there are active sessions, every route-map
value is the name of an active session, and every policy-map entry is the
policy/route binding of an active session. -/
theorem c6_session_maps_invariant (s : SMState) (h : SMReachable s) :
    s.policyMap.length ≤ s.activeSessions.length ∧
    (∀ pr ∈ s.routeMap, (pr : String × String).2 ∈ keysOf s.activeSessions) ∧
    (∀ pp ∈ s.policyMap, ∃ nm, ∃ sess : Session,
      (nm, sess) ∈ s.activeSessions ∧ sess.policyName = (pp : String × String).1 ∧
        sess.routeName = pp.2) := by
  have inv := smInv_reachable h
  refine ⟨?_, ?_, inv.policyVals⟩
  · have hsub : keysOf s.policyMap ⊆
        s.activeSessions.map (fun q => q.2.policyName) := by
      intro k hk
      obtain ⟨⟨k', v⟩, hmem, rfl⟩ := List.mem_map.mp hk
      obtain ⟨nm, sess, hmem', hpol, -⟩ := inv.policyVals (k', v) hmem
      have := List.mem_map_of_mem (fun q : String × Session => q.2.policyName) hmem'
      simpa [hpol] using this
    have hlen := (List.Nodup.subperm inv.nodupPolicy hsub).length_le
    simpa [keysOf] using hlen
  · intro pr hpr
    obtain ⟨sess, hmem, -⟩ := inv.routeVals pr hpr
    exact mem_keysOf hmem

/-- C6 witness: the invariant instantiated at the concrete reachable state
obtained by one createSession from the empty state. -/
theorem c6_witness :
    ((createSession "s1" "p1" "f1" "R" 0 "" SMState.empty).2.policyMap.length ≤
      (createSession "s1" "p1" "f1" "R" 0 "" SMState.empty).2.activeSessions.length) ∧
    (∀ pr ∈ (createSession "s1" "p1" "f1" "R" 0 "" SMState.empty).2.routeMap,
      (pr : String × String).2 ∈
        keysOf (createSession "s1" "p1" "f1" "R" 0 "" SMState.empty).2.activeSessions) ∧
    (∀ pp ∈ (createSession "s1" "p1" "f1" "R" 0 "" SMState.empty).2.policyMap,
      ∃ nm, ∃ sess : Session,
        (nm, sess) ∈ (createSession "s1" "p1" "f1" "R" 0 "" SMState.empty).2.activeSessions ∧
        sess.policyName = (pp : String × String).1 ∧ sess.routeName = pp.2) :=
  c6_session_maps_invariant _
    (SMReachable.create "s1" "p1" "f1" "R" 0 "" SMReachable.empty)

end Wazuh
